import Mathlib

/-!
Verification development for the chunked-analysis orchestration pipeline of
`classroom-insight-ai` (sources: `services/geminiService.ts` and
`services/videoSegmenter.ts`).

JavaScript strings are modelled as `List Char`, JavaScript numbers as `ℚ`
(the arithmetic performed by the pipeline — sums of seconds, percentages,
averages, timestamp arithmetic — stays well inside the exactly representable
range of IEEE doubles for all realistic inputs, so exact rational arithmetic
is the faithful idealisation), and network / inference calls as explicit
oracle parameters with recorded traces.
-/

namespace ClassroomInsight

/-- `Math.floor` on a JS number (via `Rat.floor` so it evaluates in the
kernel; `jsFloor_eq` identifies it with `⌊·⌋`). -/
def jsFloor (q : ℚ) : ℤ := q.floor

/-- JS truncation toward zero (used by the `%` operator). -/
def jsTrunc (q : ℚ) : ℤ := if 0 ≤ q then q.floor else -(-q).floor

/-- The JS remainder operator `x % y` (sign follows the dividend). -/
def jsFmod (x y : ℚ) : ℚ := x - y * (jsTrunc (x / y) : ℚ)

/-- `Math.round` on a JS number: half-up, ties toward `+∞`. -/
def jsRound (q : ℚ) : ℤ := (q + 1/2).floor

/-- `Math.ceil` on a JS number, via the exact identity `⌈x⌉ = -⌊-x⌋`. -/
def jsCeil (q : ℚ) : ℤ := -(jsFloor (-q))

/-- Decimal digit characters of a natural number, most significant first
(the rendering `n.toString()` produces for a nonnegative integer).
Fuel-based so that it reduces in the kernel; `natToChars` supplies
sufficient fuel. -/
def natToCharsAux : Nat → Nat → List Char → List Char
  | 0, _, acc => acc
  | fuel + 1, n, acc =>
    let d := Nat.digitChar (n % 10)
    if n < 10 then d :: acc else natToCharsAux fuel (n / 10) (d :: acc)

/-- `n.toString()` for a natural number. -/
def natToChars (n : Nat) : List Char := natToCharsAux (n + 1) n []

/-- `i.toString()` for an integer-valued JS number. -/
def intToChars (i : ℤ) : List Char :=
  if i < 0 then '-' :: natToChars i.natAbs else natToChars i.toNat

/-- JS `s.padStart(2, '0')`. -/
def padStart2 (cs : List Char) : List Char :=
  if 2 ≤ cs.length then cs else List.replicate (2 - cs.length) '0' ++ cs

/-- JS `s.split(sep)` for a single-character separator: the pieces between
occurrences of `sep`, empty pieces included. -/
def splitOnChar (sep : Char) : List Char → List (List Char)
  | [] => [[]]
  | c :: rest =>
    if c = sep then [] :: splitOnChar sep rest
    else
      match splitOnChar sep rest with
      | [] => [[c]]
      | p :: ps => (c :: p) :: ps

/-- Value of a most-significant-first decimal digit string. -/
def parseDigits (cs : List Char) : Nat :=
  cs.foldl (fun acc c => 10 * acc + (c.toNat - 48)) 0

/-- JS `parseInt(p, 10) || 0`: skip leading whitespace, optional sign,
read leading decimal digits; no digits (`NaN`) falls back to `0`. -/
def jsParseIntOr0 (cs : List Char) : ℤ :=
  match cs.dropWhile Char.isWhitespace with
  | [] => 0
  | c :: rest =>
    if c = '-' then
      (let ds := rest.takeWhile Char.isDigit
       if ds = [] then 0 else -(parseDigits ds : ℤ))
    else if c = '+' then
      (let ds := rest.takeWhile Char.isDigit
       if ds = [] then 0 else (parseDigits ds : ℤ))
    else
      (let ds := (c :: rest).takeWhile Char.isDigit
       if ds = [] then 0 else (parseDigits ds : ℤ))

/-- `formatTimestamp` (geminiService.ts:146-150 and videoSegmenter.ts:32-36):
`Math.floor(seconds / 60)` minutes and `Math.floor(seconds % 60)` seconds,
each zero-padded to two characters, joined by a colon. -/
def formatTimestamp (seconds : ℚ) : List Char :=
  let mins := jsFloor (seconds / 60)
  let secs := jsFloor (jsFmod seconds 60)
  padStart2 (intToChars mins) ++ ':' :: padStart2 (intToChars secs)

/-- `parseTimestamp` (geminiService.ts:155-163): split on `':'`, parse each
part with `parseInt(p, 10) || 0`, and combine two parts as MM:SS, three as
HH:MM:SS, anything else as `0`. -/
def parseTimestamp (timestamp : List Char) : ℤ :=
  match (splitOnChar ':' timestamp).map jsParseIntOr0 with
  | [a, b] => a * 60 + b
  | [a, b, c] => a * 3600 + b * 60 + c
  | _ => 0

/-- `adjustTimestamp` (geminiService.ts:168-171). -/
def adjustTimestamp (timestamp : List Char) (offsetSeconds : ℚ) : List Char :=
  formatTimestamp ((parseTimestamp timestamp : ℚ) + offsetSeconds)

/-! ### Text normalization and similarity (geminiService.ts:176-200) -/

/-- JS `s.trim()`: strip whitespace from both ends. -/
def trimList (cs : List Char) : List Char :=
  ((cs.dropWhile Char.isWhitespace).reverse.dropWhile Char.isWhitespace).reverse

/-- `replace(/\s+/g, ' ')`: each maximal whitespace run becomes one space.
The flag records whether the previous character was whitespace. -/
def collapseWSAux : Bool → List Char → List Char
  | _, [] => []
  | prevWS, c :: rest =>
    if c.isWhitespace then
      (if prevWS then collapseWSAux true rest else ' ' :: collapseWSAux true rest)
    else c :: collapseWSAux false rest

/-- `normalizeText` (geminiService.ts:176-178):
`text.toLowerCase().trim().replace(/\s+/g, ' ')`. -/
def normalizeText (text : List Char) : List Char :=
  collapseWSAux false (trimList (text.map Char.toLower))

/-- `needle` is a prefix of `hay`. -/
def startsWithList : List Char → List Char → Bool
  | [], _ => true
  | _ :: _, [] => false
  | a :: as, b :: bs => a = b && startsWithList as bs

/-- JS `hay.includes(needle)`: contiguous-substring containment. -/
def containsSub : List Char → List Char → Bool
  | [], needle => needle.isEmpty
  | c :: t, needle => startsWithList needle (c :: t) || containsSub t needle

/-- The distinct elements of a list in first-occurrence order
(JS `new Set(array)`); `seen` accumulates elements already emitted. -/
def jsSetAux {α : Type} [DecidableEq α] : List α → List α → List α
  | _, [] => []
  | seen, x :: rest =>
    if x ∈ seen then jsSetAux seen rest else x :: jsSetAux (x :: seen) rest

/-- JS `[...new Set(array)]`. -/
def jsSetElems {α : Type} [DecidableEq α] (l : List α) : List α := jsSetAux [] l

/-- The word-overlap ratio of geminiService.ts:194-197:
`|set1 ∩ set2| / max(|set1|, |set2|)` over space-separated normalized tokens
(`words2.has(w)` is membership of the split list, which carries the same
elements as its set). -/
def tokenOverlap (norm1 norm2 : List Char) : ℚ :=
  let words1 := jsSetElems (splitOnChar ' ' norm1)
  let words2 := jsSetElems (splitOnChar ' ' norm2)
  let intersection := words1.filter fun w => decide (w ∈ splitOnChar ' ' norm2)
  (intersection.length : ℚ) / (max words1.length words2.length : ℚ)

/-- `areTextsSimilar` (geminiService.ts:183-200): exact match after
normalization, else substring containment either way, else word overlap
at least `0.8`. -/
def areTextsSimilar (text1 text2 : List Char) : Bool :=
  let norm1 := normalizeText text1
  let norm2 := normalizeText text2
  if norm1 = norm2 then true
  else if containsSub norm1 norm2 || containsSub norm2 norm1 then true
  else decide ((0.8 : ℚ) ≤ tokenOverlap norm1 norm2)

/-! ### Data model (types.ts) -/

/-- `TranscriptSegment` (types.ts). -/
structure TranscriptSegment where
  speaker : List Char
  text : List Char
  timestamp : List Char
deriving DecidableEq

/-- `QAPair` (types.ts). -/
structure QAPair where
  question : List Char
  answer : List Char
  timestamp : List Char
  waitTimeSeconds : ℚ
  bloomTaxonomyLevel : List Char
deriving DecidableEq

/-! ### Deduplication (geminiService.ts:205-251) -/

/-- The duplicate test of `deduplicateTranscript` (geminiService.ts:209-219):
same speaker, timestamps within 10 seconds, similar text; the early
`return false` branches are mirrored as `if` chains. -/
def transcriptDupCheck (existing segment : TranscriptSegment) : Bool :=
  if existing.speaker ≠ segment.speaker then false
  else if 10 < |parseTimestamp existing.timestamp - parseTimestamp segment.timestamp| then false
  else areTextsSimilar existing.text segment.text

/-- The duplicate test of `deduplicateQaPairs` (geminiService.ts:236-243):
timestamps within 15 seconds and similar question. -/
def qaDupCheck (existing qa : QAPair) : Bool :=
  if 15 < |parseTimestamp existing.timestamp - parseTimestamp qa.timestamp| then false
  else areTextsSimilar existing.question qa.question

/-- The accumulate-and-scan loop shared by both dedup functions: walk the
input left to right, keep a candidate only when no already-kept entry
passes the duplicate test (`result.some(existing => ...)`). -/
def dedupLoop {α : Type} (isDup : α → α → Bool) : List α → List α → List α
  | acc, [] => acc
  | acc, x :: rest =>
    if acc.any (fun e => isDup e x) then dedupLoop isDup acc rest
    else dedupLoop isDup (acc ++ [x]) rest

/-- `deduplicateTranscript` (geminiService.ts:205-227). -/
def deduplicateTranscript (transcript : List TranscriptSegment) : List TranscriptSegment :=
  dedupLoop transcriptDupCheck [] transcript

/-- `deduplicateQaPairs` (geminiService.ts:232-251). -/
def deduplicateQaPairs (qaPairs : List QAPair) : List QAPair :=
  dedupLoop qaDupCheck [] qaPairs

/-! ### Specification-side restatement of the dedup rule (spec §4.4),
used to check the code against the spec's wording. -/

/-- Text similarity as the spec words it: similarity at least 0.8 by one of
normalized exact equality, substring containment in either direction, or
token-set overlap `|intersection| / max(|set1|, |set2|) ≥ 0.8`. -/
def SpecSimilar (t1 t2 : List Char) : Prop :=
  normalizeText t1 = normalizeText t2
    ∨ containsSub (normalizeText t1) (normalizeText t2) = true
    ∨ containsSub (normalizeText t2) (normalizeText t1) = true
    ∨ (0.8 : ℚ) ≤ tokenOverlap (normalizeText t1) (normalizeText t2)

instance (t1 t2 : List Char) : Decidable (SpecSimilar t1 t2) := by
  unfold SpecSimilar; infer_instance

/-- Spec §4.4 drop condition for utterances: some already-accepted entry has
the same speaker field, absolute-timestamp difference at most 10 seconds,
and similar text. -/
def specDropTranscript (accepted : List TranscriptSegment) (cand : TranscriptSegment) : Prop :=
  ∃ e ∈ accepted, e.speaker = cand.speaker
    ∧ |parseTimestamp e.timestamp - parseTimestamp cand.timestamp| ≤ 10
    ∧ SpecSimilar e.text cand.text

instance (acc : List TranscriptSegment) (c : TranscriptSegment) :
    Decidable (specDropTranscript acc c) := by
  unfold specDropTranscript; infer_instance

/-- Spec §4.4 drop condition for interactions: absolute-timestamp difference
at most 15 seconds and similar question (interactions carry no speaker/role
field, so the same-speaker requirement is vacuous for them). -/
def specDropQa (accepted : List QAPair) (cand : QAPair) : Prop :=
  ∃ e ∈ accepted, |parseTimestamp e.timestamp - parseTimestamp cand.timestamp| ≤ 15
    ∧ SpecSimilar e.question cand.question

instance (acc : List QAPair) (c : QAPair) : Decidable (specDropQa acc c) := by
  unfold specDropQa; infer_instance

/-- Left-to-right scan as the spec words it: a candidate is dropped iff the
drop condition holds against the accepted output so far; the
first-encountered entry of a collapsing pair is the one kept. -/
def specDedupTranscriptAux : List TranscriptSegment → List TranscriptSegment → List TranscriptSegment
  | acc, [] => acc
  | acc, x :: rest =>
    if specDropTranscript acc x then specDedupTranscriptAux acc rest
    else specDedupTranscriptAux (acc ++ [x]) rest

/-- Spec-side deduplication of utterances. -/
def specDedupTranscript (l : List TranscriptSegment) : List TranscriptSegment :=
  specDedupTranscriptAux [] l

/-- Left-to-right scan as the spec words it, for interactions. -/
def specDedupQaAux : List QAPair → List QAPair → List QAPair
  | acc, [] => acc
  | acc, x :: rest =>
    if specDropQa acc x then specDedupQaAux acc rest
    else specDedupQaAux (acc ++ [x]) rest

/-- Spec-side deduplication of interactions. -/
def specDedupQa (l : List QAPair) : List QAPair :=
  specDedupQaAux [] l

/-! ### Windower (videoSegmenter.ts:189-277) -/

/-- The chunk plan of `segmentVideo`: `Math.ceil(totalDuration / chunkLen)`
chunks; chunk `i` runs from `startTime = i * chunkLen` for
`duration = Math.min(chunkLen, totalDuration - startTime)` seconds, ending
at `endTime = startTime + duration` (videoSegmenter.ts:199,217-220).
Materializing each chunk with FFmpeg is external I/O and is not modelled. -/
def segmentPlan (totalDuration segmentDurationSeconds : ℚ) : List (ℚ × ℚ) :=
  (List.range (jsCeil (totalDuration / segmentDurationSeconds)).toNat).map fun (i : ℕ) =>
    ((i : ℚ) * segmentDurationSeconds,
     (i : ℚ) * segmentDurationSeconds
       + min segmentDurationSeconds (totalDuration - (i : ℚ) * segmentDurationSeconds))

/-! ### Inference client retry loop (geminiService.ts:303-354) -/

/-- The structured result one analysis call parses into
(`SegmentAnalysis`, geminiService.ts:292-298). -/
structure SegmentAnalysis where
  teacherTalkSeconds : ℚ
  studentTalkSeconds : ℚ
  silenceSeconds : ℚ
  qaPairs : List QAPair
  transcript : List TranscriptSegment
deriving DecidableEq

/-- Outcome of one `generateContent` call, supplied by an oracle indexed by
call number. -/
inductive ApiOutcome : Type
  | ok (result : SegmentAnalysis)
  | err503
  | errOther
deriving DecidableEq

/-- How a run of the retry loop can fail. -/
inductive RetryError : Type
  | overloaded
  | other
  | noData
deriving DecidableEq

deriving instance DecidableEq for Except

/-- Observable trace of the retry loop: final outcome, number of
`generateContent` calls issued, and the sleeps (in milliseconds) taken
between attempts. -/
structure RetryTrace where
  outcome : Except RetryError SegmentAnalysis
  calls : ℕ
  sleepsMs : List ℚ
deriving DecidableEq

/-- The `while (attempt < maxRetries)` loop of `analyzeVideoSegment`
(geminiService.ts:311-354): on success break; on a 503 increment `attempt`,
rethrow when `attempt >= maxRetries`, else sleep
`2000 * Math.pow(2, attempt - 1)` ms and retry; on any other error rethrow.
`fuel` equals `maxRetries - attempt` so the recursion is structural; the
fuel-exhausted arm is the loop falling through with no response, which the
code surfaces as the "No data returned" error. -/
def segLoop (oracle : ℕ → ApiOutcome) (maxRetries : ℕ) :
    ℕ → ℕ → ℕ → List ℚ → RetryTrace
  | 0, _, calls, sleeps => ⟨.error .noData, calls, sleeps⟩
  | fuel + 1, attempt, calls, sleeps =>
    match oracle calls with
    | .ok r => ⟨.ok r, calls + 1, sleeps⟩
    | .err503 =>
      if maxRetries ≤ attempt + 1 then ⟨.error .overloaded, calls + 1, sleeps⟩
      else segLoop oracle maxRetries fuel (attempt + 1) (calls + 1)
        (sleeps ++ [2000 * 2 ^ attempt])
    | .errOther => ⟨.error .other, calls + 1, sleeps⟩

/-- `analyzeVideoSegment`'s retry behaviour with `maxRetries = 3` starting
at `attempt = 0` (geminiService.ts:311-314). -/
def analyzeVideoSegment (oracle : ℕ → ApiOutcome) : RetryTrace :=
  segLoop oracle 3 3 0 0 []

/-! ### Upload client (geminiService.ts:53-126) -/

/-- The artifact handed to the upload client. -/
structure UploadFile where
  size : ℕ
  name : List Char
  mimeType : List Char
deriving DecidableEq

/-- How `uploadFileToGemini` can fail. -/
inductive UploadError : Type
  | missingApiKey
  | tooLarge
  | httpError (status : ℕ)
  | noUri
deriving DecidableEq

/-- The HTTP response the upload endpoint would return, supplied as an
oracle. -/
structure HttpResponse where
  ok : Bool
  status : ℕ
  uri : Option (List Char)
deriving DecidableEq

/-- Observable trace of the upload: result plus the number of network
requests issued. -/
structure UploadTrace where
  result : Except UploadError (List Char)
  requests : ℕ
deriving DecidableEq

/-- `uploadFileToGemini` (geminiService.ts:53-126): a missing API key and an
oversized file (strictly more than `200 * 1024 * 1024` bytes) are rejected
before the multipart body is assembled and before `fetch` is called; only
then is the single network request issued, whose non-OK status or missing
URI also fail. -/
def uploadFileToGemini (apiKey : Option (List Char)) (file : UploadFile)
    (net : HttpResponse) : UploadTrace :=
  match apiKey with
  | none => ⟨.error .missingApiKey, 0⟩
  | some _ =>
    if 200 * 1024 * 1024 < file.size then ⟨.error .tooLarge, 0⟩
    else if net.ok then
      match net.uri with
      | some uri => ⟨.ok uri, 1⟩
      | none => ⟨.error .noUri, 1⟩
    else ⟨.error (.httpError net.status), 1⟩

/-! ### Aggregator (geminiService.ts:576-612) and synthesis fallback
(geminiService.ts:376-412, 614-643) -/

/-- One percentage of `analyzeLessonVideo` (geminiService.ts:579-587):
`totalTime > 0 ? Math.round((part / totalTime) * 1000) / 10 : 0`. -/
def roundPercentage (part total : ℚ) : ℚ :=
  if 0 < total then (jsRound (part / total * 1000) : ℚ) / 10 else 0

/-- Average wait time (geminiService.ts:600-603): keep strictly positive
waits, and if any remain take `Math.round((sum / count) * 10) / 10`,
else `0`. -/
def averageWaitTime (waitTimes : List ℚ) : ℚ :=
  let positives := waitTimes.filter fun w => decide (0 < w)
  if 0 < positives.length then
    (jsRound (positives.sum / (positives.length : ℚ) * 10) : ℚ) / 10
  else 0

/-- The wait-time aggregation as the pipeline performs it: deduplicate the
gathered Q&A pairs first, then average their wait times
(geminiService.ts:596-603). -/
def pipelineAverageWait (allQaPairs : List QAPair) : ℚ :=
  averageWaitTime ((deduplicateQaPairs allQaPairs).map fun qa => qa.waitTimeSeconds)

/-- The quantitative report before the narrative is attached
(`combinedData`, geminiService.ts:605-612). -/
structure CombinedData where
  teacherTalkTimePercentage : ℚ
  studentTalkTimePercentage : ℚ
  silenceOrGroupWorkPercentage : ℚ
  averageWaitTimeSeconds : ℚ
  qaPairs : List QAPair
  transcript : List TranscriptSegment
deriving DecidableEq

/-- `LessonAnalysis` (types.ts), the final report (token accounting
omitted: no claim concerns it). -/
structure LessonAnalysis where
  teacherTalkTimePercentage : ℚ
  studentTalkTimePercentage : ℚ
  silenceOrGroupWorkPercentage : ℚ
  averageWaitTimeSeconds : ℚ
  qaPairs : List QAPair
  transcript : List TranscriptSegment
  overallFeedback : List Char
deriving DecidableEq

/-- Outcome of the one synthesis (`generateContent`) call inside
`generateOverallFeedback`: either the call returned (with `response.text`
possibly absent), or it threw. -/
inductive SynthesisOutcome : Type
  | returned (text : Option (List Char))
  | threw
deriving DecidableEq

/-- The fixed fallback narrative of geminiService.ts:411. -/
def defaultOverallFeedback : List Char :=
  ("The lesson demonstrated a structured approach to content delivery with opportunities for increased student participation.").data

/-- `generateOverallFeedback` (geminiService.ts:376-412): when the call
returns, `response.text || fallback` substitutes the fixed string for a
missing or empty text; when the call throws, the exception propagates —
there is no `try`/`catch` inside the function. -/
def generateOverallFeedback (outcome : SynthesisOutcome) : Except Unit (List Char) :=
  match outcome with
  | .threw => .error ()
  | .returned none => .ok defaultOverallFeedback
  | .returned (some t) => .ok (if t = [] then defaultOverallFeedback else t)

/-- The final stage of `analyzeLessonVideo` (geminiService.ts:614-643):
await `generateOverallFeedback` and attach the narrative to the combined
data; the surrounding `catch` only logs and rethrows, so a synthesis
exception aborts the run. -/
def finalizeAnalysis (d : CombinedData) (outcome : SynthesisOutcome) :
    Except Unit LessonAnalysis :=
  match generateOverallFeedback outcome with
  | .error e => .error e
  | .ok fb => .ok ⟨d.teacherTalkTimePercentage, d.studentTalkTimePercentage,
      d.silenceOrGroupWorkPercentage, d.averageWaitTimeSeconds,
      d.qaPairs, d.transcript, fb⟩

/-! ### Basic bridging lemmas for the JS arithmetic primitives -/

theorem jsFloor_eq (q : ℚ) : jsFloor q = ⌊q⌋ := by
  rw [jsFloor, Rat.floor_def', ← Rat.floor_def]

theorem jsTrunc_eq (q : ℚ) : jsTrunc q = if 0 ≤ q then ⌊q⌋ else ⌈q⌉ := by
  rw [jsTrunc]
  rcases le_or_lt 0 q with h | h
  · simp only [if_pos h]
    exact jsFloor_eq q
  · simp only [if_neg (not_le.mpr h)]
    rw [show (-q).floor = jsFloor (-q) from rfl, jsFloor_eq, Int.floor_neg, neg_neg]

theorem jsRound_eq (q : ℚ) : jsRound q = ⌊q + 1/2⌋ := jsFloor_eq (q + 1/2)

theorem jsCeil_eq (q : ℚ) : jsCeil q = ⌈q⌉ := by
  rw [jsCeil, jsFloor_eq, Int.floor_neg, neg_neg]

/-! ### Correctness of the decimal rendering/parsing pair -/

/-- The ten decimal digit characters. -/
def decimalDigits : List Char := ['0', '1', '2', '3', '4', '5', '6', '7', '8', '9']

theorem digitChar_mem_decimalDigits {d : ℕ} (hd : d < 10) :
    Nat.digitChar d ∈ decimalDigits := by
  interval_cases d <;> decide

theorem digitChar_toNat {d : ℕ} (hd : d < 10) : (Nat.digitChar d).toNat - 48 = d := by
  interval_cases d <;> decide

theorem mem_decimalDigits_props {c : Char} (hc : c ∈ decimalDigits) :
    c.isDigit = true ∧ c.isWhitespace = false ∧ c ≠ ':' ∧ c ≠ '-' ∧ c ≠ '+' := by
  fin_cases hc <;> exact ⟨rfl, rfl, by decide, by decide, by decide⟩

theorem natToCharsAux_mem {c : Char} :
    ∀ fuel n acc, c ∈ natToCharsAux fuel n acc → c ∈ decimalDigits ∨ c ∈ acc := by
  intro fuel
  induction fuel with
  | zero => intro n acc h; exact Or.inr h
  | succ fuel ih =>
    intro n acc h
    simp only [natToCharsAux] at h
    by_cases h10 : n < 10
    · rw [if_pos h10] at h
      rcases List.mem_cons.mp h with h | h
      · exact Or.inl (h ▸ digitChar_mem_decimalDigits (Nat.mod_lt n (by norm_num)))
      · exact Or.inr h
    · rw [if_neg h10] at h
      rcases ih (n / 10) _ h with h | h
      · exact Or.inl h
      · rcases List.mem_cons.mp h with h | h
        · exact Or.inl (h ▸ digitChar_mem_decimalDigits (Nat.mod_lt n (by omega)))
        · exact Or.inr h

theorem natToChars_mem {c : Char} {n : ℕ} (h : c ∈ natToChars n) : c ∈ decimalDigits := by
  rcases natToCharsAux_mem _ _ _ h with h | h
  · exact h
  · simp at h

theorem natToCharsAux_fuel :
    ∀ f1 f2 n acc, n < f1 → n < f2 → natToCharsAux f1 n acc = natToCharsAux f2 n acc := by
  intro f1
  induction f1 with
  | zero => intro f2 n acc h; omega
  | succ f1 ih =>
    intro f2 n acc h1 h2
    match f2, h2 with
    | f2 + 1, _ =>
      simp only [natToCharsAux]
      by_cases h10 : n < 10
      · rw [if_pos h10, if_pos h10]
      · rw [if_neg h10, if_neg h10]
        exact ih f2 (n / 10) _ (by omega) (by omega)

theorem natToCharsAux_append :
    ∀ fuel n acc, natToCharsAux fuel n acc = natToCharsAux fuel n [] ++ acc := by
  intro fuel
  induction fuel with
  | zero => intro n acc; simp [natToCharsAux]
  | succ fuel ih =>
    intro n acc
    simp only [natToCharsAux]
    by_cases h10 : n < 10
    · rw [if_pos h10, if_pos h10]; rfl
    · rw [if_neg h10, if_neg h10, ih (n / 10) [Nat.digitChar (n % 10)],
        ih (n / 10) (Nat.digitChar (n % 10) :: acc), List.append_assoc]
      rfl

theorem natToChars_ne_nil (n : ℕ) : natToChars n ≠ [] := by
  rw [natToChars]
  simp only [natToCharsAux]
  by_cases h10 : n < 10
  · rw [if_pos h10]; simp
  · rw [if_neg h10, natToCharsAux_append]
    simp

theorem parseDigits_natToChars (n : ℕ) : parseDigits (natToChars n) = n := by
  induction n using Nat.strong_induction_on with
  | _ n ih =>
    rw [natToChars]
    by_cases h10 : n < 10
    · simp only [natToCharsAux, if_pos h10, parseDigits, List.foldl]
      rw [Nat.mod_eq_of_lt h10, digitChar_toNat h10]
      omega
    · have hlt : n / 10 < n := Nat.div_lt_self (by omega) (by norm_num)
      simp only [natToCharsAux, if_neg h10]
      rw [natToCharsAux_append, natToCharsAux_fuel n (n / 10 + 1) (n / 10) [] (by omega) (by omega)]
      have : natToCharsAux (n / 10 + 1) (n / 10) [] = natToChars (n / 10) := rfl
      rw [this, parseDigits, List.foldl_append]
      have hrec : List.foldl (fun acc c => 10 * acc + (c.toNat - 48)) 0 (natToChars (n / 10))
          = n / 10 := ih (n / 10) hlt
      rw [hrec]
      simp only [List.foldl]
      rw [digitChar_toNat (Nat.mod_lt n (by norm_num))]
      omega

theorem parseDigits_cons_zero (cs : List Char) :
    parseDigits ('0' :: cs) = parseDigits cs := by
  simp [parseDigits, List.foldl]

theorem parseDigits_padStart2 (cs : List Char) :
    parseDigits (padStart2 cs) = parseDigits cs := by
  rw [padStart2]
  by_cases h : 2 ≤ cs.length
  · rw [if_pos h]
  · rw [if_neg h]
    rcases hk : 2 - cs.length with _ | k
    · simp
    · rcases k with _ | k
      · rw [show List.replicate 1 '0' = ['0'] from rfl]
        exact parseDigits_cons_zero cs
      · rcases k with _ | k
        · rw [show List.replicate 2 '0' = ['0', '0'] from rfl]
          rw [show ['0', '0'] ++ cs = '0' :: '0' :: cs from rfl,
            parseDigits_cons_zero, parseDigits_cons_zero]
        · omega

theorem padStart2_mem {c : Char} {cs : List Char} (h : c ∈ padStart2 cs) :
    c = '0' ∨ c ∈ cs := by
  rw [padStart2] at h
  by_cases h2 : 2 ≤ cs.length
  · rw [if_pos h2] at h; exact Or.inr h
  · rw [if_neg h2] at h
    rcases List.mem_append.mp h with h | h
    · exact Or.inl (List.eq_of_mem_replicate h)
    · exact Or.inr h

theorem splitOnChar_no_sep {sep : Char} :
    ∀ cs : List Char, (∀ c ∈ cs, c ≠ sep) → splitOnChar sep cs = [cs] := by
  intro cs
  induction cs with
  | nil => intro; rfl
  | cons c rest ih =>
    intro h
    simp only [splitOnChar]
    rw [if_neg (h c (List.mem_cons_self c rest)), ih fun x hx => h x (List.mem_cons_of_mem c hx)]

theorem splitOnChar_append {sep : Char} :
    ∀ a b : List Char, (∀ c ∈ a, c ≠ sep) →
      splitOnChar sep (a ++ sep :: b) = a :: splitOnChar sep b := by
  intro a
  induction a with
  | nil => intro b _; simp [splitOnChar]
  | cons c a' ih =>
    intro b h
    simp only [List.cons_append, splitOnChar]
    rw [if_neg (h c (List.mem_cons_self c a')),
      show a'.append (sep :: b) = a' ++ sep :: b from rfl,
      ih b fun x hx => h x (List.mem_cons_of_mem c hx)]

theorem takeWhile_isDigit_of_all {cs : List Char} (h : ∀ c ∈ cs, c.isDigit = true) :
    cs.takeWhile Char.isDigit = cs := by
  induction cs with
  | nil => rfl
  | cons c rest ih =>
    rw [List.takeWhile_cons, h c (List.mem_cons_self c rest),
      ih fun x hx => h x (List.mem_cons_of_mem c hx)]
    simp

/-- On a nonempty string of decimal digits, `parseInt(s, 10) || 0` returns
the digits' value. -/
theorem jsParseIntOr0_digits {cs : List Char} (hne : cs ≠ [])
    (h : ∀ c ∈ cs, c ∈ decimalDigits) : jsParseIntOr0 cs = (parseDigits cs : ℤ) := by
  match cs, hne with
  | c :: rest, _ =>
    have hc := mem_decimalDigits_props (h c (List.mem_cons_self c rest))
    have hdrop : (c :: rest).dropWhile Char.isWhitespace = c :: rest := by
      rw [List.dropWhile_cons, hc.2.1]
      simp
    rw [jsParseIntOr0, hdrop]
    simp only
    rw [if_neg hc.2.2.2.1, if_neg hc.2.2.2.2]
    have htake : (c :: rest).takeWhile Char.isDigit = c :: rest :=
      takeWhile_isDigit_of_all fun x hx => (mem_decimalDigits_props (h x hx)).1
    rw [htake]
    simp

/-! ### The timestamp round trip -/

theorem intToChars_nonneg {i : ℤ} (hi : 0 ≤ i) : intToChars i = natToChars i.toNat := by
  rw [intToChars, if_neg (not_lt.mpr hi)]

theorem intToChars_mem {c : Char} {i : ℤ} (h : c ∈ intToChars i) :
    c ∈ decimalDigits ∨ c = '-' := by
  rw [intToChars] at h
  by_cases hi : i < 0
  · rw [if_pos hi] at h
    rcases List.mem_cons.mp h with h | h
    · exact Or.inr h
    · exact Or.inl (natToChars_mem h)
  · rw [if_neg hi] at h
    exact Or.inl (natToChars_mem h)

theorem padStart2_ne_nil {cs : List Char} (h : cs ≠ []) : padStart2 cs ≠ [] := by
  rw [padStart2]
  by_cases h2 : 2 ≤ cs.length
  · rw [if_pos h2]; exact h
  · rw [if_neg h2]; simp [h]

theorem padStart2_intToChars_ne_colon {i : ℤ} :
    ∀ c ∈ padStart2 (intToChars i), c ≠ ':' := by
  intro c hc
  rcases padStart2_mem hc with rfl | hc
  · decide
  · rcases intToChars_mem hc with hd | rfl
    · exact (mem_decimalDigits_props hd).2.2.1
    · decide

theorem padStart2_natToChars_mem {n : ℕ} :
    ∀ c ∈ padStart2 (natToChars n), c ∈ decimalDigits := by
  intro c hc
  rcases padStart2_mem hc with rfl | hc
  · decide
  · exact natToChars_mem hc

/-- The rendered timestamp always has exactly one colon, hence exactly two
components: the minutes field grows beyond two digits instead of ever
switching to an HH:MM:SS shape. -/
theorem splitOnChar_formatTimestamp (s : ℚ) :
    splitOnChar ':' (formatTimestamp s) =
      [padStart2 (intToChars (jsFloor (s / 60))),
       padStart2 (intToChars (jsFloor (jsFmod s 60)))] := by
  rw [formatTimestamp]
  rw [splitOnChar_append _ _ padStart2_intToChars_ne_colon,
    splitOnChar_no_sep _ padStart2_intToChars_ne_colon]

theorem jsParseIntOr0_padded (n : ℕ) :
    jsParseIntOr0 (padStart2 (natToChars n)) = (n : ℤ) := by
  rw [jsParseIntOr0_digits (padStart2_ne_nil (natToChars_ne_nil n)) padStart2_natToChars_mem,
    parseDigits_padStart2, parseDigits_natToChars]

/-- Parsing a rendered timestamp recovers the floor of the rendered value,
for every nonnegative number of seconds. -/
theorem parseTimestamp_formatTimestamp (s : ℚ) (hs : 0 ≤ s) :
    parseTimestamp (formatTimestamp s) = ⌊s⌋ := by
  have hdiv : (0 : ℚ) ≤ s / 60 := by positivity
  have hm : (0 : ℤ) ≤ ⌊s / 60⌋ := Int.floor_nonneg.mpr hdiv
  have hmins : jsFloor (s / 60) = ⌊s / 60⌋ := jsFloor_eq _
  have htr : jsTrunc (s / 60) = ⌊s / 60⌋ := by rw [jsTrunc_eq, if_pos hdiv]
  have hfmod : jsFmod s 60 = s - ((60 * ⌊s / 60⌋ : ℤ) : ℚ) := by
    rw [jsFmod, htr]; push_cast; ring
  have hsecs : jsFloor (jsFmod s 60) = ⌊s⌋ - 60 * ⌊s / 60⌋ := by
    rw [jsFloor_eq, hfmod, Int.floor_sub_int]
  have hle : ((60 * ⌊s / 60⌋ : ℤ) : ℚ) ≤ s := by
    have h1 : ((⌊s / 60⌋ : ℤ) : ℚ) ≤ s / 60 := Int.floor_le (s / 60)
    push_cast
    linarith
  have hsecs_nonneg : (0 : ℤ) ≤ ⌊s⌋ - 60 * ⌊s / 60⌋ :=
    sub_nonneg.mpr (Int.le_floor.mpr hle)
  rw [parseTimestamp, splitOnChar_formatTimestamp, hmins, hsecs,
    intToChars_nonneg hm, intToChars_nonneg hsecs_nonneg]
  simp only [List.map_cons, List.map_nil, jsParseIntOr0_padded]
  rw [Int.toNat_of_nonneg hm, Int.toNat_of_nonneg hsecs_nonneg]
  ring

/-- Remapping a timestamp whose parse is nonnegative by a nonnegative
offset yields a two-component rendering that reparses to the old value
plus the floor of the offset. -/
theorem parseTimestamp_adjustTimestamp (cs : List Char) (d : ℚ)
    (hcs : 0 ≤ parseTimestamp cs) (hd : 0 ≤ d) :
    parseTimestamp (adjustTimestamp cs d) = parseTimestamp cs + ⌊d⌋ := by
  rw [adjustTimestamp, parseTimestamp_formatTimestamp _ (by positivity),
    add_comm, Int.floor_add_int, add_comm]

theorem adjustTimestamp_comp (cs : List Char) (d1 d2 : ℕ)
    (h : 0 ≤ parseTimestamp cs) :
    adjustTimestamp (adjustTimestamp cs d1) d2 = adjustTimestamp cs ((d1 : ℚ) + d2) := by
  rw [show adjustTimestamp cs ((d1 : ℚ) + d2)
      = formatTimestamp ((parseTimestamp cs : ℚ) + ((d1 : ℚ) + d2)) from rfl,
    show adjustTimestamp (adjustTimestamp cs d1) d2
      = formatTimestamp ((parseTimestamp (adjustTimestamp cs d1) : ℚ) + d2) from rfl,
    parseTimestamp_adjustTimestamp cs d1 h (by positivity)]
  congr 1
  rw [Int.floor_natCast]
  push_cast
  ring

/-! ### Deduplication: agreement with the spec rule, and idempotence -/

theorem areTextsSimilar_iff (t1 t2 : List Char) :
    areTextsSimilar t1 t2 = true ↔ SpecSimilar t1 t2 := by
  rw [areTextsSimilar, SpecSimilar]
  by_cases h1 : normalizeText t1 = normalizeText t2
  · simp [h1]
  · by_cases h2 : containsSub (normalizeText t1) (normalizeText t2) = true
    · simp [h1, h2]
    · by_cases h3 : containsSub (normalizeText t2) (normalizeText t1) = true
      · simp [h1, h2, h3]
      · simp [h1, h2, h3]

theorem transcriptDupCheck_iff (e x : TranscriptSegment) :
    transcriptDupCheck e x = true ↔
      e.speaker = x.speaker
        ∧ |parseTimestamp e.timestamp - parseTimestamp x.timestamp| ≤ 10
        ∧ SpecSimilar e.text x.text := by
  rw [transcriptDupCheck]
  by_cases h1 : e.speaker = x.speaker
  · rw [if_neg (not_not.mpr h1)]
    by_cases h2 : 10 < |parseTimestamp e.timestamp - parseTimestamp x.timestamp|
    · rw [if_pos h2]
      simp [h1, not_lt.mp, h2, not_le.mpr h2]
    · rw [if_neg h2]
      simp [h1, not_lt.mp h2, areTextsSimilar_iff]
  · simp [h1]

theorem qaDupCheck_iff (e x : QAPair) :
    qaDupCheck e x = true ↔
      |parseTimestamp e.timestamp - parseTimestamp x.timestamp| ≤ 15
        ∧ SpecSimilar e.question x.question := by
  rw [qaDupCheck]
  by_cases h2 : 15 < |parseTimestamp e.timestamp - parseTimestamp x.timestamp|
  · rw [if_pos h2]
    simp [not_le.mpr h2]
  · rw [if_neg h2]
    simp [not_lt.mp h2, areTextsSimilar_iff]

theorem any_transcriptDupCheck (acc : List TranscriptSegment) (x : TranscriptSegment) :
    (acc.any fun e => transcriptDupCheck e x) = true ↔ specDropTranscript acc x := by
  rw [specDropTranscript]
  simp only [List.any_eq_true, transcriptDupCheck_iff]

theorem any_qaDupCheck (acc : List QAPair) (x : QAPair) :
    (acc.any fun e => qaDupCheck e x) = true ↔ specDropQa acc x := by
  rw [specDropQa]
  simp only [List.any_eq_true, qaDupCheck_iff]

theorem dedupTranscript_loop_eq :
    ∀ (l acc : List TranscriptSegment),
      dedupLoop transcriptDupCheck acc l = specDedupTranscriptAux acc l := by
  intro l
  induction l with
  | nil => intro acc; rfl
  | cons x rest ih =>
    intro acc
    rw [dedupLoop, specDedupTranscriptAux]
    by_cases h : specDropTranscript acc x
    · rw [if_pos ((any_transcriptDupCheck acc x).mpr h), if_pos h]
      exact ih acc
    · rw [if_neg (fun hc => h ((any_transcriptDupCheck acc x).mp hc)), if_neg h]
      exact ih _

theorem dedupQa_loop_eq :
    ∀ (l acc : List QAPair), dedupLoop qaDupCheck acc l = specDedupQaAux acc l := by
  intro l
  induction l with
  | nil => intro acc; rfl
  | cons x rest ih =>
    intro acc
    rw [dedupLoop, specDedupQaAux]
    by_cases h : specDropQa acc x
    · rw [if_pos ((any_qaDupCheck acc x).mpr h), if_pos h]
      exact ih acc
    · rw [if_neg (fun hc => h ((any_qaDupCheck acc x).mp hc)), if_neg h]
      exact ih _

theorem dedupLoop_pairwise {α : Type} (d : α → α → Bool) :
    ∀ (l acc : List α), List.Pairwise (fun a b => d a b = false) acc →
      List.Pairwise (fun a b => d a b = false) (dedupLoop d acc l) := by
  intro l
  induction l with
  | nil => intro acc h; exact h
  | cons x rest ih =>
    intro acc hacc
    rw [dedupLoop]
    by_cases h : (acc.any fun e => d e x) = true
    · rw [if_pos h]
      exact ih acc hacc
    · rw [if_neg h]
      refine ih (acc ++ [x]) ?_
      rw [List.pairwise_append]
      refine ⟨hacc, ?_, ?_⟩
      · simp
      · intro a ha b hb
        rw [List.mem_singleton] at hb
        rw [hb]
        rcases Bool.eq_false_or_eq_true (d a x) with htrue | hfalse
        · exact absurd (List.any_eq_true.mpr ⟨a, ha, htrue⟩) h
        · exact hfalse

theorem dedupLoop_no_new_drops {α : Type} (d : α → α → Bool) :
    ∀ (l acc : List α), List.Pairwise (fun a b => d a b = false) l →
      (∀ e ∈ acc, ∀ x ∈ l, d e x = false) →
      dedupLoop d acc l = acc ++ l := by
  intro l
  induction l with
  | nil => intro acc _ _; rw [dedupLoop, List.append_nil]
  | cons x rest ih =>
    intro acc hl hcross
    rw [dedupLoop]
    have hany : ¬ ((acc.any fun e => d e x) = true) := by
      rw [List.any_eq_true]
      rintro ⟨e, he, hd⟩
      rw [hcross e he x (List.mem_cons_self x rest)] at hd
      exact Bool.false_ne_true hd
    have hcross2 : ∀ e ∈ acc ++ [x], ∀ y ∈ rest, d e y = false := by
      intro e he y hy
      rcases List.mem_append.mp he with he | he
      · exact hcross e he y (List.mem_cons_of_mem x hy)
      · rw [List.mem_singleton] at he
        subst he
        exact (List.pairwise_cons.mp hl).1 y hy
    rw [if_neg hany, ih (acc ++ [x]) (List.Pairwise.of_cons hl) hcross2]
    simp

theorem dedupLoop_idem {α : Type} (d : α → α → Bool) (l : List α) :
    dedupLoop d [] (dedupLoop d [] l) = dedupLoop d [] l := by
  have h1 := dedupLoop_pairwise d l [] List.Pairwise.nil
  have h2 := dedupLoop_no_new_drops d (dedupLoop d [] l) [] h1 (by intro e he; simp at he)
  rw [h2, List.nil_append]

/-! ### Windower: shape of the chunk plan -/

theorem segmentPlan_length (T L : ℚ) :
    (segmentPlan T L).length = (jsCeil (T / L)).toNat := by
  rw [segmentPlan, List.length_map, List.length_range]

theorem segmentPlan_get (T L : ℚ) (i : ℕ) (h : i < (segmentPlan T L).length) :
    (segmentPlan T L).get ⟨i, h⟩ =
      ((i : ℚ) * L, (i : ℚ) * L + min L (T - (i : ℚ) * L)) := by
  have hi : i < (jsCeil (T / L)).toNat := by
    rw [← segmentPlan_length T L]; exact h
  rw [List.get_eq_getElem]
  show (List.map _ (List.range _))[i] = _
  rw [List.getElem_map, List.getElem_range]

theorem segmentPlan_card (T L : ℚ) (hT : 0 < T) (hL : 0 < L) :
    ((segmentPlan T L).length : ℤ) = ⌈T / L⌉ := by
  rw [segmentPlan_length, jsCeil_eq,
    Int.toNat_of_nonneg (le_of_lt (Int.ceil_pos.mpr (div_pos hT hL)))]

theorem mul_lt_of_lt_ceil {T L : ℚ} (_hT : 0 < T) (hL : 0 < L) {i : ℕ}
    (hi : (i : ℤ) < ⌈T / L⌉) : (i : ℚ) * L < T := by
  have h2 : ((⌈T / L⌉ : ℤ) : ℚ) < T / L + 1 := Int.ceil_lt_add_one (T / L)
  have h1 : ((i : ℤ) : ℚ) ≤ ((⌈T / L⌉ : ℤ) : ℚ) - 1 := by
    have : (i : ℤ) ≤ ⌈T / L⌉ - 1 := by omega
    exact_mod_cast this
  have h3 : (i : ℚ) < T / L := by push_cast at h1 ⊢; linarith
  have h4 : (i : ℚ) * L < (T / L) * L := (mul_lt_mul_right hL).mpr h3
  rwa [div_mul_cancel₀ T (ne_of_gt hL)] at h4

theorem le_of_ceil_le {T L : ℚ} (hL : 0 < L) {N : ℕ} (hN : ⌈T / L⌉ ≤ (N : ℤ)) :
    T ≤ (N : ℚ) * L := by
  have h1 : T / L ≤ ((⌈T / L⌉ : ℤ) : ℚ) := Int.le_ceil (T / L)
  have h2 : ((⌈T / L⌉ : ℤ) : ℚ) ≤ ((N : ℤ) : ℚ) := by exact_mod_cast hN
  have h3 : T / L ≤ (N : ℚ) := by push_cast at h2 ⊢; linarith
  calc T = (T / L) * L := (div_mul_cancel₀ T (ne_of_gt hL)).symm
    _ ≤ (N : ℚ) * L := (mul_le_mul_right hL).mpr h3

theorem list_range_map_sum (g : ℕ → ℚ) (N : ℕ) :
    ((List.range N).map g).sum = ∑ i in Finset.range N, g i := by
  induction N with
  | zero => simp
  | succ N ih =>
    rw [List.range_succ, List.map_append, List.sum_append, Finset.sum_range_succ, ih]
    simp

theorem segmentPlan_sum (T L : ℚ) (hT : 0 < T) (hL : 0 < L) :
    (((segmentPlan T L).map fun p => p.2 - p.1).sum) = T := by
  have hcard := segmentPlan_card T L hT hL
  rw [segmentPlan, List.map_map]
  have hfun : ((fun p : ℚ × ℚ => p.2 - p.1) ∘ fun i : ℕ =>
      ((i : ℚ) * L, (i : ℚ) * L + min L (T - (i : ℚ) * L)))
      = fun i : ℕ => min L (T - (i : ℚ) * L) := by
    funext i
    simp
  rw [hfun, list_range_map_sum]
  set N := (jsCeil (T / L)).toNat with hNdef
  have hNceil : (N : ℤ) = ⌈T / L⌉ := by
    rw [hNdef, jsCeil_eq,
      Int.toNat_of_nonneg (le_of_lt (Int.ceil_pos.mpr (div_pos hT hL)))]
  have hterm : ∀ i ∈ Finset.range N,
      min L (T - (i : ℚ) * L)
        = min (((i : ℕ) + 1 : ℚ) * L) T - min ((i : ℚ) * L) T := by
    intro i hi
    have hiN : (i : ℤ) < ⌈T / L⌉ := by
      rw [← hNceil]
      exact_mod_cast Finset.mem_range.mp hi
    have hiT : (i : ℚ) * L < T := mul_lt_of_lt_ceil hT hL hiN
    rw [min_eq_left (le_of_lt hiT), ← min_sub_sub_right]
    congr 1
    ring
  rw [Finset.sum_congr rfl hterm]
  have htel : ∑ i in Finset.range N, (min (((i : ℕ) + 1 : ℚ) * L) T - min ((i : ℚ) * L) T)
      = min ((N : ℚ) * L) T - min ((0 : ℚ) * L) T := by
    have := Finset.sum_range_sub (fun i : ℕ => min ((i : ℚ) * L) T) N
    simpa using this
  rw [htel, min_eq_right (le_of_ceil_le hL (le_of_eq hNceil.symm)),
    zero_mul, min_eq_left (le_of_lt hT)]
  ring

/-! ### Retry loop behaviour -/

theorem segLoop_calls_le (oracle : ℕ → ApiOutcome) (m : ℕ) :
    ∀ fuel attempt calls sleeps,
      (segLoop oracle m fuel attempt calls sleeps).calls ≤ calls + fuel := by
  intro fuel
  induction fuel with
  | zero => intro attempt calls sleeps; simp [segLoop]
  | succ fuel ih =>
    intro attempt calls sleeps
    rw [segLoop]
    cases h : oracle calls with
    | ok r => simp
    | err503 =>
      by_cases hm : m ≤ attempt + 1
      · simp [hm]
      · simp only [if_neg hm]
        calc (segLoop oracle m fuel (attempt + 1) (calls + 1) _).calls
            ≤ (calls + 1) + fuel := ih _ _ _
          _ = calls + (fuel + 1) := by omega
    | errOther => simp

theorem analyzeVideoSegment_three_503 (oracle : ℕ → ApiOutcome)
    (h0 : oracle 0 = ApiOutcome.err503) (h1 : oracle 1 = ApiOutcome.err503)
    (h2 : oracle 2 = ApiOutcome.err503) :
    analyzeVideoSegment oracle
      = ⟨Except.error RetryError.overloaded, 3, [2000, 4000]⟩ := by
  rw [analyzeVideoSegment]
  rw [show (3 : ℕ) = 2 + 1 from rfl]
  rw [segLoop, h0]
  norm_num
  rw [segLoop, h1]
  norm_num
  rw [segLoop, h2]
  norm_num

theorem analyzeVideoSegment_recovers (oracle : ℕ → ApiOutcome) (r : SegmentAnalysis)
    (h0 : oracle 0 = ApiOutcome.err503) (h1 : oracle 1 = ApiOutcome.err503)
    (h2 : oracle 2 = ApiOutcome.ok r) :
    analyzeVideoSegment oracle = ⟨Except.ok r, 3, [2000, 4000]⟩ := by
  rw [analyzeVideoSegment]
  rw [show (3 : ℕ) = 2 + 1 from rfl]
  rw [segLoop, h0]
  norm_num
  rw [segLoop, h1]
  norm_num
  rw [segLoop, h2]

theorem analyzeVideoSegment_other_immediate (oracle : ℕ → ApiOutcome)
    (h0 : oracle 0 = ApiOutcome.errOther) :
    analyzeVideoSegment oracle = ⟨Except.error RetryError.other, 1, []⟩ := by
  rw [analyzeVideoSegment]
  rw [show (3 : ℕ) = 2 + 1 from rfl]
  rw [segLoop, h0]

/-! ### Aggregator arithmetic -/

theorem roundPercentage_near (part total : ℚ) (h : 0 < total) :
    |roundPercentage part total - part / total * 100| ≤ 1 / 20 := by
  rw [roundPercentage, if_pos h, jsRound_eq]
  have hle : ((⌊part / total * 1000 + 1 / 2⌋ : ℤ) : ℚ) ≤ part / total * 1000 + 1 / 2 :=
    Int.floor_le _
  have hgt : part / total * 1000 + 1 / 2 < (⌊part / total * 1000 + 1 / 2⌋ : ℤ) + 1 :=
    Int.lt_floor_add_one _
  rw [abs_le]
  constructor <;> [nlinarith; nlinarith]

/-! ### Claim theorems -/

/-- C1, counterexample: when the synthesis call throws, `analyzeLessonVideo`
does NOT return a report — the error propagates and the run aborts, so the
claimed "fails soft on any failure" is false on the code. -/
theorem synthesis_throw_aborts_run :
    finalizeAnalysis ⟨0, 0, 0, 0, [], []⟩ SynthesisOutcome.threw = Except.error ()
      ∧ (finalizeAnalysis ⟨0, 0, 0, 0, [], []⟩ SynthesisOutcome.threw).isOk = false :=
  ⟨rfl, rfl⟩

/-- C1, amended: the fixed generic narrative is substituted only when the
synthesis call returns with a missing or empty text (`response.text ||
fallback`), and then all quantitative fields are unaffected; a synthesis
call that throws aborts the whole run. -/
theorem synthesis_fallback_only_on_missing_text (d : CombinedData) :
    finalizeAnalysis d (SynthesisOutcome.returned none)
        = Except.ok ⟨d.teacherTalkTimePercentage, d.studentTalkTimePercentage,
            d.silenceOrGroupWorkPercentage, d.averageWaitTimeSeconds, d.qaPairs,
            d.transcript, defaultOverallFeedback⟩
      ∧ finalizeAnalysis d (SynthesisOutcome.returned (some []))
        = Except.ok ⟨d.teacherTalkTimePercentage, d.studentTalkTimePercentage,
            d.silenceOrGroupWorkPercentage, d.averageWaitTimeSeconds, d.qaPairs,
            d.transcript, defaultOverallFeedback⟩
      ∧ (∀ t : List Char, t ≠ [] →
          finalizeAnalysis d (SynthesisOutcome.returned (some t))
            = Except.ok ⟨d.teacherTalkTimePercentage, d.studentTalkTimePercentage,
                d.silenceOrGroupWorkPercentage, d.averageWaitTimeSeconds, d.qaPairs,
                d.transcript, t⟩)
      ∧ finalizeAnalysis d SynthesisOutcome.threw = Except.error () := by
  refine ⟨rfl, rfl, ?_, rfl⟩
  intro t ht
  simp [finalizeAnalysis, generateOverallFeedback, ht]

/-- C1, witness for the amended statement at a concrete report and
nonempty narrative. -/
theorem synthesis_fallback_witness :
    finalizeAnalysis ⟨0, 0, 0, 0, [], []⟩ (SynthesisOutcome.returned (some ['x']))
      = Except.ok ⟨0, 0, 0, 0, [], [], ['x']⟩ :=
  (synthesis_fallback_only_on_missing_text ⟨0, 0, 0, 0, [], []⟩).2.2.1 ['x'] (by decide)

/-- C2, counterexample: past 99:59 the code keeps a two-component
minutes:seconds rendering with a three-digit minutes field; it never
switches to HH:MM:SS. `remap("02:15", 6000)` is `"102:15"`, not the
claimed canonical `"01:42:15"`. -/
theorem adjustTimestamp_no_hhmmss_switch :
    adjustTimestamp (['0', '2', ':', '1', '5']) 6000 = ['1', '0', '2', ':', '1', '5']
      ∧ adjustTimestamp (['0', '2', ':', '1', '5']) 6000 ≠ ['0', '1', ':', '4', '2', ':', '1', '5']
      ∧ (splitOnChar ':' (adjustTimestamp (['0', '2', ':', '1', '5']) 6000)).length ≠ 3 := by
  with_unfolding_all decide

/-- C2, amended: remapping adds the offset and renders
`floor(total/60)`:`floor(total%60)` zero-padded, always with exactly two
components (the minutes field grows without bound instead of switching to
HH:MM:SS); the result reparses to the original seconds plus the floor of
the offset, and `remap("02:15", 300) = "07:15"`. -/
theorem adjustTimestamp_amended (cs : List Char) (d : ℚ)
    (hp : 0 ≤ parseTimestamp cs) (hd : 0 ≤ d) :
    parseTimestamp (adjustTimestamp cs d) = parseTimestamp cs + ⌊d⌋
      ∧ (splitOnChar ':' (adjustTimestamp cs d)).length = 2
      ∧ adjustTimestamp (['0', '2', ':', '1', '5']) 300 = ['0', '7', ':', '1', '5'] := by
  refine ⟨parseTimestamp_adjustTimestamp cs d hp hd, ?_, by with_unfolding_all decide⟩
  rw [adjustTimestamp, splitOnChar_formatTimestamp]
  rfl

/-- C2, witness for the amended statement at `"02:15"` and offset 300. -/
theorem adjustTimestamp_amended_witness :
    parseTimestamp (adjustTimestamp (['0', '2', ':', '1', '5']) 300)
      = parseTimestamp (['0', '2', ':', '1', '5']) + ⌊(300 : ℚ)⌋ :=
  (adjustTimestamp_amended (['0', '2', ':', '1', '5']) 300 (by decide) (by norm_num)).1

/-- C3: for positive total duration and chunk length, the plan has
`ceil(total/chunkLen)` chunks; chunk `i` starts at `i*chunkLen`; every
chunk except the last has length exactly `chunkLen` and ends where the
next one starts; the last chunk ends at `total`; every chunk (the last
included) has positive length; and the chunk lengths sum to `total`. -/
theorem segmentPlan_spec (T L : ℚ) (hT : 0 < T) (hL : 0 < L) :
    ((segmentPlan T L).length : ℤ) = ⌈T / L⌉
      ∧ (∀ i (h : i < (segmentPlan T L).length),
          ((segmentPlan T L).get ⟨i, h⟩).1 = (i : ℚ) * L)
      ∧ (∀ i (h : i < (segmentPlan T L).length), i + 1 < (segmentPlan T L).length →
          ((segmentPlan T L).get ⟨i, h⟩).2 - ((segmentPlan T L).get ⟨i, h⟩).1 = L)
      ∧ (∀ i (h : i < (segmentPlan T L).length), i + 1 < (segmentPlan T L).length →
          ((segmentPlan T L).get ⟨i, h⟩).2 = ((i + 1 : ℕ) : ℚ) * L)
      ∧ (∀ h : 0 < (segmentPlan T L).length,
          ((segmentPlan T L).get ⟨(segmentPlan T L).length - 1, by omega⟩).2 = T)
      ∧ (∀ i (h : i < (segmentPlan T L).length),
          0 < ((segmentPlan T L).get ⟨i, h⟩).2 - ((segmentPlan T L).get ⟨i, h⟩).1)
      ∧ ((segmentPlan T L).map fun p => p.2 - p.1).sum = T := by
  have hlen := segmentPlan_card T L hT hL
  have hfull : ∀ i : ℕ, i + 1 < (segmentPlan T L).length → L ≤ T - (i : ℚ) * L := by
    intro i hi1
    have hi : ((i + 1 : ℕ) : ℤ) < ⌈T / L⌉ := by
      rw [← hlen]; exact_mod_cast hi1
    have hlt : ((i + 1 : ℕ) : ℚ) * L < T := mul_lt_of_lt_ceil hT hL hi
    push_cast at hlt
    linarith
  refine ⟨hlen, ?_, ?_, ?_, ?_, ?_, segmentPlan_sum T L hT hL⟩
  · intro i h
    rw [segmentPlan_get]
  · intro i h hi1
    rw [segmentPlan_get]
    show (i : ℚ) * L + min L (T - (i : ℚ) * L) - (i : ℚ) * L = L
    rw [min_eq_left (hfull i hi1)]
    ring
  · intro i h hi1
    rw [segmentPlan_get]
    show (i : ℚ) * L + min L (T - (i : ℚ) * L) = ((i + 1 : ℕ) : ℚ) * L
    rw [min_eq_left (hfull i hi1)]
    push_cast
    ring
  · intro h
    have hN1 : 1 ≤ (segmentPlan T L).length := h
    have hiN : (segmentPlan T L).length - 1 < (segmentPlan T L).length := by omega
    have hiceil : (((segmentPlan T L).length - 1 : ℕ) : ℤ) < ⌈T / L⌉ := by
      rw [← hlen]; exact_mod_cast hiN
    have hTle : T ≤ ((segmentPlan T L).length : ℚ) * L :=
      le_of_ceil_le hL (le_of_eq hlen.symm)
    have hcast : (((segmentPlan T L).length - 1 : ℕ) : ℚ)
        = ((segmentPlan T L).length : ℚ) - 1 := by
      rw [Nat.cast_sub hN1]; simp
    have hmin : min L (T - (((segmentPlan T L).length - 1 : ℕ) : ℚ) * L)
        = T - (((segmentPlan T L).length - 1 : ℕ) : ℚ) * L := by
      apply min_eq_right
      rw [hcast]
      nlinarith
    rw [segmentPlan_get]
    show (((segmentPlan T L).length - 1 : ℕ) : ℚ) * L
        + min L (T - (((segmentPlan T L).length - 1 : ℕ) : ℚ) * L) = T
    rw [hmin]
    ring
  · intro i h
    have hiceil : (i : ℤ) < ⌈T / L⌉ := by
      rw [← hlen]; exact_mod_cast h
    have hiT := mul_lt_of_lt_ceil hT hL hiceil
    rw [segmentPlan_get]
    show 0 < (i : ℚ) * L + min L (T - (i : ℚ) * L) - (i : ℚ) * L
    have hpos : 0 < min L (T - (i : ℚ) * L) := lt_min hL (by linarith)
    linarith

/-- C3, witness at `plan(1000, 300)`: four chunks
`[0,300), [300,600), [600,900), [900,1000)`. -/
theorem segmentPlan_spec_witness :
    ((segmentPlan 1000 300).length : ℤ) = ⌈(1000 : ℚ) / 300⌉
      ∧ ((segmentPlan 1000 300).map fun p => p.2 - p.1).sum = 1000
      ∧ segmentPlan 1000 300 = [(0, 300), (300, 600), (600, 900), (900, 1000)] :=
  ⟨(segmentPlan_spec 1000 300 (by norm_num) (by norm_num)).1,
   (segmentPlan_spec 1000 300 (by norm_num) (by norm_num)).2.2.2.2.2.2,
   by set_option maxRecDepth 4000 in with_unfolding_all decide⟩

/-- C4: the left-to-right scan of both dedup functions drops a candidate
exactly when some already-accepted entry satisfies the spec's rule — same
speaker field (for transcript segments; Q&A pairs carry none), timestamp
difference within the 10s/15s window, and similarity at least 0.8 by
normalized equality, substring containment either way, or token-set
overlap — keeping the first-encountered entry. -/
theorem dedup_matches_spec_rule :
    (∀ l : List TranscriptSegment, deduplicateTranscript l = specDedupTranscript l)
      ∧ (∀ l : List QAPair, deduplicateQaPairs l = specDedupQa l) :=
  ⟨fun l => dedupTranscript_loop_eq l [], fun l => dedupQa_loop_eq l []⟩

/-- C5: both deduplication passes are idempotent — rerunning them on their
own output removes nothing further. -/
theorem dedup_idempotent :
    (∀ l : List TranscriptSegment,
        deduplicateTranscript (deduplicateTranscript l) = deduplicateTranscript l)
      ∧ (∀ l : List QAPair,
          deduplicateQaPairs (deduplicateQaPairs l) = deduplicateQaPairs l) :=
  ⟨fun l => dedupLoop_idem transcriptDupCheck l, fun l => dedupLoop_idem qaDupCheck l⟩

/-- C6: the per-chunk analysis call retries only on the 503 overload
signal, with at most 3 calls: three consecutive overloads raise after the
3rd call with backoff sleeps of 2000 ms then 4000 ms; two overloads then a
success return normally after exactly 3 calls; any other failure
propagates after a single call with no sleeps; and no oracle ever draws
more than 3 calls. -/
theorem retry_policy :
    (∀ oracle : ℕ → ApiOutcome, oracle 0 = ApiOutcome.err503 →
        oracle 1 = ApiOutcome.err503 → oracle 2 = ApiOutcome.err503 →
        analyzeVideoSegment oracle
          = ⟨Except.error RetryError.overloaded, 3, [2000, 4000]⟩)
      ∧ (∀ (oracle : ℕ → ApiOutcome) (r : SegmentAnalysis),
          oracle 0 = ApiOutcome.err503 → oracle 1 = ApiOutcome.err503 →
          oracle 2 = ApiOutcome.ok r →
          analyzeVideoSegment oracle = ⟨Except.ok r, 3, [2000, 4000]⟩)
      ∧ (∀ oracle : ℕ → ApiOutcome, oracle 0 = ApiOutcome.errOther →
          analyzeVideoSegment oracle = ⟨Except.error RetryError.other, 1, []⟩)
      ∧ (∀ oracle : ℕ → ApiOutcome, (analyzeVideoSegment oracle).calls ≤ 3) := by
  refine ⟨analyzeVideoSegment_three_503, analyzeVideoSegment_recovers,
    analyzeVideoSegment_other_immediate, ?_⟩
  intro oracle
  have h := segLoop_calls_le oracle 3 3 0 0 []
  simpa using h

/-- C6, witness: the three scenarios at concrete oracles. -/
theorem retry_policy_witness :
    analyzeVideoSegment (fun _ => ApiOutcome.err503)
        = ⟨Except.error RetryError.overloaded, 3, [2000, 4000]⟩
      ∧ analyzeVideoSegment
          (fun n => if n < 2 then ApiOutcome.err503 else ApiOutcome.ok ⟨0, 0, 0, [], []⟩)
        = ⟨Except.ok ⟨0, 0, 0, [], []⟩, 3, [2000, 4000]⟩
      ∧ analyzeVideoSegment (fun _ => ApiOutcome.errOther)
        = ⟨Except.error RetryError.other, 1, []⟩ :=
  ⟨retry_policy.1 _ rfl rfl rfl,
   retry_policy.2.1 _ _ rfl rfl rfl,
   retry_policy.2.2.1 _ rfl⟩

/-- C7: with a positive summed total the three percentages are
`100*part/total` rounded to one decimal and their sum is 100 within
rounding (at most 3/20 away); with a zero total all three are 0; and
`teacher=120, student=60, silence=20` give exactly 60.0, 30.0, 10.0. -/
theorem talk_time_percentages (t s si : ℚ) :
    (t + s + si = 0 → roundPercentage t (t + s + si) = 0
        ∧ roundPercentage s (t + s + si) = 0 ∧ roundPercentage si (t + s + si) = 0)
      ∧ (0 < t + s + si →
          |roundPercentage t (t + s + si) + roundPercentage s (t + s + si)
            + roundPercentage si (t + s + si) - 100| ≤ 3 / 20)
      ∧ roundPercentage 120 200 = 60 ∧ roundPercentage 60 200 = 30
      ∧ roundPercentage 20 200 = 10 := by
  refine ⟨?_, ?_, by with_unfolding_all decide, by with_unfolding_all decide,
    by with_unfolding_all decide⟩
  · intro h
    rw [h]
    refine ⟨?_, ?_, ?_⟩ <;> · rw [roundPercentage, if_neg (lt_irrefl 0)]
  · intro h
    have e1 := roundPercentage_near t (t + s + si) h
    have e2 := roundPercentage_near s (t + s + si) h
    have e3 := roundPercentage_near si (t + s + si) h
    have h1 : t / (t + s + si) + s / (t + s + si) + si / (t + s + si) = 1 := by
      rw [div_add_div_same, div_add_div_same, div_self (ne_of_gt h)]
    have hsum : t / (t + s + si) * 100 + s / (t + s + si) * 100
        + si / (t + s + si) * 100 = 100 := by linear_combination 100 * h1
    rw [abs_le] at e1 e2 e3 ⊢
    constructor <;> linarith

/-- C7, witness: the zero case at all-zero tallies and the positive case
at the spec's example tallies. -/
theorem talk_time_percentages_witness :
    roundPercentage 0 ((0 : ℚ) + 0 + 0) = 0
      ∧ |roundPercentage 120 ((120 : ℚ) + 60 + 20) + roundPercentage 60 ((120 : ℚ) + 60 + 20)
          + roundPercentage 20 ((120 : ℚ) + 60 + 20) - 100| ≤ 3 / 20
      ∧ roundPercentage 120 200 = 60 :=
  ⟨((talk_time_percentages 0 0 0).1 (by norm_num)).1,
   (talk_time_percentages 120 60 20).2.1 (by norm_num),
   (talk_time_percentages 120 60 20).2.2.1⟩

/-- C8: the average wait is the one-decimal-rounded mean over the strictly
positive waits of the deduplicated interaction list, 0 when none are
positive; waits `[4, 0, 6, -1]` give exactly 5, not 2.25. -/
theorem average_wait_spec :
    averageWaitTime [4, 0, 6, -1] = 5
      ∧ averageWaitTime [4, 0, 6, -1] ≠ 9 / 4
      ∧ (∀ ws : List ℚ, ws.filter (fun w => decide (0 < w)) = [] → averageWaitTime ws = 0)
      ∧ (∀ ws : List ℚ, ws.filter (fun w => decide (0 < w)) ≠ [] →
          averageWaitTime ws
            = (jsRound ((ws.filter fun w => decide (0 < w)).sum
                / ((ws.filter fun w => decide (0 < w)).length : ℚ) * 10) : ℚ) / 10)
      ∧ (∀ qas : List QAPair, pipelineAverageWait qas
          = averageWaitTime ((deduplicateQaPairs qas).map fun qa => qa.waitTimeSeconds)) := by
  refine ⟨by with_unfolding_all decide, by with_unfolding_all decide, ?_, ?_, fun qas => rfl⟩
  · intro ws hw
    rw [averageWaitTime]
    simp [hw]
  · intro ws hw
    simp only [averageWaitTime]
    rw [if_pos (List.length_pos.mpr hw)]

/-- C8, witness: the no-positive-wait case and the rounded-mean formula at
concrete wait lists. -/
theorem average_wait_spec_witness :
    averageWaitTime [(-1 : ℚ)] = 0
      ∧ averageWaitTime [(4 : ℚ), 0, 6, -1]
        = (jsRound (([(4 : ℚ), 0, 6, -1].filter fun w => decide (0 < w)).sum
            / (([(4 : ℚ), 0, 6, -1].filter fun w => decide (0 < w)).length : ℚ) * 10) : ℚ) / 10 :=
  ⟨average_wait_spec.2.2.1 [(-1 : ℚ)] (by with_unfolding_all decide),
   average_wait_spec.2.2.2.1 [(4 : ℚ), 0, 6, -1] (by with_unfolding_all decide)⟩

/-- C9: any artifact strictly larger than the 200 MiB ceiling makes the
upload fail with the size-limit error while issuing zero network
requests — the rejection precedes body construction and the `fetch`
call. -/
theorem upload_rejects_oversized_before_network (k : List Char) (file : UploadFile)
    (net : HttpResponse) (h : 200 * 1024 * 1024 < file.size) :
    uploadFileToGemini (some k) file net = ⟨Except.error UploadError.tooLarge, 0⟩ := by
  rw [uploadFileToGemini]
  simp [h]

/-- C9, witness: a file one byte over the ceiling is rejected with zero
requests even when the network would have answered successfully. -/
theorem upload_oversized_witness :
    uploadFileToGemini (some []) ⟨209715201, [], []⟩ ⟨true, 200, some []⟩
      = ⟨Except.error UploadError.tooLarge, 0⟩ :=
  upload_rejects_oversized_before_network [] ⟨209715201, [], []⟩ ⟨true, 200, some []⟩
    (by norm_num)

/-- C10: formatting then parsing round-trips to the floor of the seconds
value for every nonnegative input, and remapping twice by natural-number
offsets equals remapping once by their sum. -/
theorem timestamp_roundtrip_floor :
    (∀ s : ℚ, 0 ≤ s → parseTimestamp (formatTimestamp s) = ⌊s⌋)
      ∧ (∀ (cs : List Char) (d1 d2 : ℕ), 0 ≤ parseTimestamp cs →
          adjustTimestamp (adjustTimestamp cs (d1 : ℚ)) (d2 : ℚ)
            = adjustTimestamp cs ((d1 : ℚ) + (d2 : ℚ))) :=
  ⟨parseTimestamp_formatTimestamp, fun cs d1 d2 h => adjustTimestamp_comp cs d1 d2 h⟩

/-- C10, witness: the round trip at 5/2 seconds and the composition at
`"02:15"` with offsets 60 and 30. -/
theorem timestamp_roundtrip_floor_witness :
    parseTimestamp (formatTimestamp (5 / 2 : ℚ)) = ⌊(5 / 2 : ℚ)⌋
      ∧ adjustTimestamp (adjustTimestamp (['0', '2', ':', '1', '5']) ((60 : ℕ) : ℚ)) ((30 : ℕ) : ℚ)
        = adjustTimestamp (['0', '2', ':', '1', '5']) (((60 : ℕ) : ℚ) + ((30 : ℕ) : ℚ)) :=
  ⟨timestamp_roundtrip_floor.1 (5 / 2) (by norm_num),
   timestamp_roundtrip_floor.2 (['0', '2', ':', '1', '5']) 60 30 (by decide)⟩

end ClassroomInsight
